import Mathlib

/-!
Verification of the filecmp library (file and directory comparison in the
style of the Python standard library `filecmp` module).

The development shallowly embeds the library:

* `stat` constants and mode predicates from `src/stat.rs`;
* the stat `Signature` (kind, size, mtime) with its bit-pattern based
  equality and hash from `src/lib.rs` (`Signature::canonicalize`,
  `PartialEq`, `Hash`);
* the process-wide comparison cache (a `HashMap` keyed by
  `(path1, path2, sig1, sig2)` behind a mutex) as an association list;
* `cmp`, `do_cmp`, `cmpfiles`, `clear_cache` and `DirCmp::new` from
  `src/lib.rs`.

The filesystem is abstracted as a record of pure functions (`FS`): one
`stat` call, one whole-file content read, and one directory listing, each
returning `Except IOErr _` exactly where the Rust code performs fallible
I/O.  Files are byte lists; paths are strings joined with `/`.
-/

namespace Filecmp

/-- The single error kind of the library: an I/O error (`std::io::Error`).
The payload is irrelevant to every property proved here. -/
inductive IOErr where
  | ioError
deriving DecidableEq

/-- An `f64` modelled by its bit pattern, because the source compares and
hashes modification times through `f64::to_ne_bytes` (the raw bits), never
through IEEE floating-point arithmetic. -/
structure F64 where
  bits : Nat
deriving DecidableEq

/-- `f64::to_ne_bytes`: the eight bytes of the bit pattern (little endian;
endianness is irrelevant since only equality of the byte arrays is used). -/
def F64.toNeBytes (x : F64) : List Nat :=
  [x.bits % 256, x.bits / 2 ^ 8 % 256, x.bits / 2 ^ 16 % 256, x.bits / 2 ^ 24 % 256,
   x.bits / 2 ^ 32 % 256, x.bits / 2 ^ 40 % 256, x.bits / 2 ^ 48 % 256, x.bits / 2 ^ 56 % 256]

/-- The fields of `os::StatResult` that the library core reads
(`st_mode`, `st_size`, `st_mtime`); the remaining fields are private and
unused by `sig` and `DirCmp::new`. -/
structure StatResult where
  st_mode : Nat
  st_size : Nat
  st_mtime : F64
deriving DecidableEq

/-- `stat::S_IFMT`: the file-type portion of a mode. -/
def S_IFMT (mode : Nat) : Nat := mode &&& 0o170000

/-- `stat::S_IFDIR`. -/
def S_IFDIR : Nat := 0o040000

/-- `stat::S_IFREG`. -/
def S_IFREG : Nat := 0o100000

/-- `stat::S_ISDIR`. -/
def S_ISDIR (mode : Nat) : Bool := S_IFMT mode == S_IFDIR

/-- `stat::S_ISREG`. -/
def S_ISREG (mode : Nat) : Bool := S_IFMT mode == S_IFREG

/-- `BUFSIZE`: the chunk size of the content-comparison loop. -/
def BUFSIZE : Nat := 8 * 1024

/-- `MAX_CACHE_SIZE`. -/
def MAX_CACHE_SIZE : Nat := 100

/-- The `Signature` struct of `src/lib.rs`. -/
structure Signature where
  s_ifmt : Nat
  st_size : Nat
  st_mtime : F64
deriving DecidableEq

/-- `Signature::canonicalize`: the tuple `(s_ifmt, st_size, st_mtime.to_ne_bytes())`
through which both `PartialEq` and `Hash` are defined. -/
def Signature.canonicalize (s : Signature) : Nat × Nat × List Nat :=
  (s.s_ifmt, s.st_size, s.st_mtime.toNeBytes)

/-- `Signature`'s `PartialEq::eq`: equality of the canonicalized tuples,
hence bit-pattern equality on the modification time. -/
def Signature.eqv (a b : Signature) : Bool :=
  decide (a.canonicalize = b.canonicalize)

/-- `Signature`'s `Hash::hash`: hash the canonicalized tuple with whatever
hasher is supplied. -/
def Signature.hashWith (h : Nat × Nat × List Nat → Nat) (s : Signature) : Nat :=
  h s.canonicalize

/-- `sig`: extract the comparison signature from a stat result. -/
def sig (st : StatResult) : Signature :=
  { s_ifmt := S_IFMT st.st_mode, st_size := st.st_size, st_mtime := st.st_mtime }

/-- The filesystem, abstracted as pure fallible queries: `os::stat` (symlinks
followed), a whole-file content read (`File::open` plus the `read` calls of
`do_cmp`, which either all succeed or fail), and `read_dir` returning the
list of child names (all-or-nothing, covering the per-entry `Result`s). -/
structure FS where
  stat : String → Except IOErr StatResult
  content : String → Except IOErr (List Nat)
  readDir : String → Except IOErr (List String)

/-- A cache key: `(PathBuf, PathBuf, Signature, Signature)`. -/
abbrev CacheKey := String × String × Signature × Signature

/-- The comparison cache `CACHE`, modelled as an association list. -/
abbrev Cache := List (CacheKey × Bool)

/-- Key equality as the `HashMap` sees it: structural on the paths,
`Signature::eq` (canonicalized) on the signatures. -/
def keyEqv (a b : CacheKey) : Bool :=
  decide (a.1 = b.1) && decide (a.2.1 = b.2.1) &&
    Signature.eqv a.2.2.1 b.2.2.1 && Signature.eqv a.2.2.2 b.2.2.2

/-- `HashMap::get` on the cache. -/
def cacheGet (c : Cache) (k : CacheKey) : Option Bool :=
  (c.find? (fun e => keyEqv e.1 k)).map (fun e => e.2)

/-- `HashMap::insert` on the cache: replace the matching entry if present,
otherwise add a new one. -/
def cacheInsert (c : Cache) (k : CacheKey) (v : Bool) : Cache :=
  if (c.find? (fun e => keyEqv e.1 k)).isSome then
    c.map (fun e => if keyEqv e.1 k then (k, v) else e)
  else (k, v) :: c

/-- `clear_cache`. -/
def clear_cache : Cache := []

/-- One iteration of the `do_cmp` loop: read up to `BUFSIZE` bytes from each
file; differing read lengths mean inequality, two empty reads mean
simultaneous end-of-file, differing chunk contents mean inequality, and
otherwise the loop continues on the remainders. -/
def chunkStep (go : List Nat → List Nat → Bool) (c1 c2 : List Nat) : Bool :=
  if min BUFSIZE c1.length ≠ min BUFSIZE c2.length then false
  else if min BUFSIZE c1.length = 0 then true
  else if c1.take (min BUFSIZE c1.length) ≠ c2.take (min BUFSIZE c1.length) then false
  else go (c1.drop (min BUFSIZE c1.length)) (c2.drop (min BUFSIZE c1.length))

/-- The `do_cmp` loop, driven by fuel so that the definition is structurally
recursive (and hence evaluable on concrete inputs).  Each productive
iteration consumes at least one byte of `c1`, so any fuel exceeding
`c1.length` is adequate; `chunkCmp` supplies such fuel and
`chunkCmp_step` below shows the loop equation holds exactly. -/
def chunkCmpFuel : Nat → List Nat → List Nat → Bool
  | 0, _, _ => false
  | fuel + 1, c1, c2 => chunkStep (chunkCmpFuel fuel) c1 c2

/-- The comparison loop of `do_cmp` on the two files' byte contents. -/
def chunkCmp (c1 c2 : List Nat) : Bool :=
  chunkCmpFuel (c1.length + 1) c1 c2

/-- `do_cmp`: open both files and compare contents in `BUFSIZE` chunks. -/
def do_cmp (fs : FS) (f1 f2 : String) : Except IOErr Bool :=
  match fs.content f1 with
  | .error e => .error e
  | .ok c1 =>
    match fs.content f2 with
    | .error e => .error e
    | .ok c2 => .ok (chunkCmp c1 c2)

/-- The observable outcome of one `cmp` call: the returned `io::Result<bool>`,
the cache state after the call, and two instrumentation flags recording
whether any file content was read and whether the cache was consulted. -/
structure CmpResult where
  result : Except IOErr Bool
  cache : Cache
  readContent : Bool
  consultedCache : Bool

/-- `cmp`: compare two files, following the source line by line: stat both
paths, reject non-regular files, short-circuit on signature equality in
shallow mode, short-circuit on differing sizes, then consult the cache,
falling back to `do_cmp` with the (clear-if-oversized, then insert)
bookkeeping of the source. -/
def cmp (fs : FS) (cache : Cache) (f1 f2 : String) (shallow : Bool) : CmpResult :=
  match fs.stat f1 with
  | .error e => ⟨.error e, cache, false, false⟩
  | .ok st1 =>
    match fs.stat f2 with
    | .error e => ⟨.error e, cache, false, false⟩
    | .ok st2 =>
      let s1 := sig st1
      let s2 := sig st2
      if s1.s_ifmt ≠ S_IFREG ∨ s2.s_ifmt ≠ S_IFREG then ⟨.ok false, cache, false, false⟩
      else if shallow && Signature.eqv s1 s2 then ⟨.ok true, cache, false, false⟩
      else if s1.st_size ≠ s2.st_size then ⟨.ok false, cache, false, false⟩
      else
        let key : CacheKey := (f1, f2, s1, s2)
        match cacheGet cache key with
        | some outcome => ⟨.ok outcome, cache, false, true⟩
        | none =>
          match do_cmp fs f1 f2 with
          | .error e => ⟨.error e, cache, true, true⟩
          | .ok outcome =>
            let cache1 := if cache.length > MAX_CACHE_SIZE then clear_cache else cache
            ⟨.ok outcome, cacheInsert cache1 key outcome, true, true⟩

/-- Path join, `dir1.as_ref().join(x)`. -/
def joinPath (d n : String) : String := d ++ "/" ++ n

/-- The loop body of `cmpfiles`: thread the cache through each `cmp` call and
route each common name into the same / diff / funny bucket by the call's
outcome. -/
def cmpfilesLoop (fs : FS) (dir1 dir2 : String) (shallow : Bool) :
    Cache → List String → (List String × List String × List String) × Cache
  | cache, [] => (([], [], []), cache)
  | cache, x :: rest =>
    let r := cmp fs cache (joinPath dir1 x) (joinPath dir2 x) shallow
    let rest0 := cmpfilesLoop fs dir1 dir2 shallow r.cache rest
    match r.result with
    | .ok true => ((x :: rest0.1.1, rest0.1.2.1, rest0.1.2.2), rest0.2)
    | .ok false => ((rest0.1.1, x :: rest0.1.2.1, rest0.1.2.2), rest0.2)
    | .error _ => ((rest0.1.1, rest0.1.2.1, x :: rest0.1.2.2), rest0.2)

/-- `cmpfiles`: compare the common files of two directories, returning the
`(same, diff, funny)` triple.  The body never uses the `?` operator — every
`cmp` error is caught by the loop — so the result is always `Ok`. -/
def cmpfiles (fs : FS) (cache : Cache) (dir1 dir2 : String) (common : List String)
    (shallow : Bool) :
    Except IOErr ((List String × List String × List String) × Cache) :=
  .ok (cmpfilesLoop fs dir1 dir2 shallow cache common)

/-- `DEFAULT_IGNORES`. -/
def ignoreNames : List String :=
  ["RCS", "CVS", "tags", ".git", ".hg", ".bzr", "_darcs", "__pycache__"]

/-- The hide list `[CURDIR, PARDIR]`. -/
def hideNames : List String := [".", ".."]

/-- Byte-wise lexicographic order on strings (as Rust orders `PathBuf`s when
`Vec::sort` is called).  Written structurally over the character lists so
that it evaluates on concrete inputs; UTF-8 byte order coincides with code
point order, so comparing characters is faithful. -/
def strLeChars : List Char → List Char → Bool
  | [], _ => true
  | _ :: _, [] => false
  | a :: as, b :: bs =>
    if a.val.toNat < b.val.toNat then true
    else if b.val.toNat < a.val.toNat then false
    else strLeChars as bs

/-- Order on names used for the directory listings. -/
def strLe (a b : String) : Bool := strLeChars a.data b.data

/-- The listing pipeline of `DirCmp::new` for one directory: filter out the
ignored and hidden names, then sort.  The source filters and sorts the full
paths `dir/name` and then strips the `dir/` prefix to recover the names;
since every full path shares the same `dir/` prefix, filtering and sorting
the bare names is the same computation. -/
def listNames (entries : List String) : List String :=
  List.insertionSort (fun a b => strLe a b = true)
    ((entries.filter (fun n => !(ignoreNames.contains n))).filter
      (fun n => !(hideNames.contains n)))

/-- The classification loop of `DirCmp::new` over the common names: stat both
sides of each name; any stat failure or type disagreement sends the name to
`common_funny`, matching directories go to `common_dirs`, matching regular
files to `common_files`, and any other matching type to `common_funny`.
Returns `(common_dirs, common_files, common_funny)`. -/
def classifyCommon (fs : FS) (left right : String) :
    List String → List String × List String × List String
  | [] => ([], [], [])
  | x :: rest =>
    let r := classifyCommon fs left right rest
    match fs.stat (joinPath left x), fs.stat (joinPath right x) with
    | .ok ls, .ok rs =>
      let left_type := S_IFMT ls.st_mode
      let right_type := S_IFMT rs.st_mode
      if left_type ≠ right_type then (r.1, r.2.1, x :: r.2.2)
      else if S_ISDIR left_type then (x :: r.1, r.2.1, r.2.2)
      else if S_ISREG left_type then (r.1, x :: r.2.1, r.2.2)
      else (r.1, r.2.1, x :: r.2.2)
    | _, _ => (r.1, r.2.1, x :: r.2.2)

/-- How a `DirCmp::new` invocation can fail: the function returns `Self`, so
its only failure mode is a runtime panic (an `unwrap` of an `Err`). -/
inductive RunErr where
  | panicked
deriving DecidableEq

/-- The fields of the `DirCmp` struct. -/
structure DirCmpRes where
  left : String
  right : String
  left_list : List String
  right_list : List String
  common : List String
  left_only : List String
  right_only : List String
  common_dirs : List String
  common_files : List String
  common_funny : List String
  same_files : List String
  diff_files : List String
  funny_files : List String
deriving DecidableEq

/-- `DirCmp::new`.  Listing either top-level directory goes through
`.unwrap()`, so a listing failure panics; likewise the final
`cmpfiles(..).unwrap()` (which in fact can never fail).  The cache is
threaded through the `cmpfiles` call. -/
def DirCmp.new (fs : FS) (cache : Cache) (left right : String) :
    Except RunErr (DirCmpRes × Cache) :=
  match fs.readDir left with
  | .error _ => .error .panicked
  | .ok lEntries =>
    match fs.readDir right with
    | .error _ => .error .panicked
    | .ok rEntries =>
      let left_names := listNames lEntries
      let right_names := listNames rEntries
      let common := left_names.filter (fun n => right_names.contains n)
      let left_only := left_names.filter (fun n => !(common.contains n))
      let right_only := right_names.filter (fun n => !(common.contains n))
      let cls := classifyCommon fs left right common
      match cmpfiles fs cache left right cls.2.1 true with
      | .error _ => .error .panicked
      | .ok res =>
        .ok ({ left := left, right := right,
               left_list := left_names.map (joinPath left),
               right_list := right_names.map (joinPath right),
               common := common, left_only := left_only, right_only := right_only,
               common_dirs := cls.1, common_files := cls.2.1, common_funny := cls.2.2,
               same_files := res.1.1, diff_files := res.1.2.1,
               funny_files := res.1.2.2 }, res.2)

/-- Cache states reachable through the library's public surface: the cache
starts empty, every `cmp` call maps a reachable state to a reachable state
(under an arbitrary filesystem, so mutation between calls is covered), and
`clear_cache` resets it. -/
inductive CacheReachable : Cache → Prop
  | empty : CacheReachable []
  | step (fs : FS) (c : Cache) (f1 f2 : String) (shallow : Bool) :
      CacheReachable c → CacheReachable (cmp fs c f1 f2 shallow).cache
  | clearStep (c : Cache) : CacheReachable c → CacheReachable clear_cache

/-! ### Lemmas about the content-comparison loop -/

theorem chunkCmpFuel_congr :
    ∀ (f1 : Nat) (c1 c2 : List Nat) (f2 : Nat), c1.length < f1 → c1.length < f2 →
      chunkCmpFuel f1 c1 c2 = chunkCmpFuel f2 c1 c2 := by
  intro f1
  induction f1 with
  | zero => intro c1 c2 f2 h1 _; omega
  | succ a ih =>
    intro c1 c2 f2 h1 h2
    match f2, h2 with
    | b + 1, h2 =>
      show chunkStep (chunkCmpFuel a) c1 c2 = chunkStep (chunkCmpFuel b) c1 c2
      unfold chunkStep
      split
      · rfl
      next hlen =>
        split
        · rfl
        next h0 =>
          split
          · rfl
          next =>
            have hmle : min BUFSIZE c1.length ≤ c1.length := Nat.min_le_right _ _
            have hdrop : (c1.drop (min BUFSIZE c1.length)).length < c1.length := by
              simp only [List.length_drop]
              omega
            exact ih _ _ b (by omega) (by omega)

theorem chunkCmp_step (c1 c2 : List Nat) :
    chunkCmp c1 c2 = chunkStep chunkCmp c1 c2 := by
  show chunkCmpFuel (c1.length + 1) c1 c2 = _
  show chunkStep (chunkCmpFuel c1.length) c1 c2 = chunkStep chunkCmp c1 c2
  unfold chunkStep
  split
  · rfl
  next hlen =>
    split
    · rfl
    next h0 =>
      split
      · rfl
      next =>
        have hmle : min BUFSIZE c1.length ≤ c1.length := Nat.min_le_right _ _
        have hdrop : (c1.drop (min BUFSIZE c1.length)).length < c1.length := by
          simp only [List.length_drop]
          omega
        exact chunkCmpFuel_congr _ _ _ _ hdrop (Nat.lt_succ_self _)

theorem take_drop_ext {m : Nat} {c1 c2 : List Nat}
    (ht : c1.take m = c2.take m) (hd : c1.drop m = c2.drop m) : c1 = c2 := by
  have h1 := List.take_append_drop m c1
  have h2 := List.take_append_drop m c2
  rw [← h1, ← h2, ht, hd]

theorem chunkCmp_eq_decide :
    ∀ (n : Nat) (c1 c2 : List Nat), c1.length ≤ n →
      chunkCmp c1 c2 = decide (c1 = c2) := by
  intro n
  induction n with
  | zero =>
    intro c1 c2 h1
    have hc1 : c1 = [] := List.length_eq_zero.mp (Nat.le_zero.mp h1)
    subst hc1
    rw [chunkCmp_step]
    unfold chunkStep
    cases c2 with
    | nil => simp
    | cons y ys =>
      have : min BUFSIZE ([] : List Nat).length ≠ min BUFSIZE (y :: ys).length := by
        simp [BUFSIZE]
        omega
      simp only [if_pos this]
      simp
  | succ a ih =>
    intro c1 c2 h1
    rw [chunkCmp_step]
    unfold chunkStep
    split
    next hlen =>
      have hne : c1 ≠ c2 := by
        intro h
        subst h
        exact hlen rfl
      simp [hne]
    next hlen =>
      push_neg at hlen
      split
      next h0 =>
        have hB : BUFSIZE ≠ 0 := by decide
        have hc1 : c1 = [] := by
          rcases Nat.min_eq_zero_iff.mp h0 with h | h
          · exact absurd h hB
          · exact List.length_eq_zero.mp h
        have hc2 : c2 = [] := by
          rcases Nat.min_eq_zero_iff.mp (hlen ▸ h0) with h | h
          · exact absurd h hB
          · exact List.length_eq_zero.mp h
        subst hc1; subst hc2
        simp
      next h0 =>
        split
        next htake =>
          have hne : c1 ≠ c2 := by
            intro h
            subst h
            exact htake rfl
          simp [hne]
        next htake =>
          push_neg at htake
          have hmpos : 0 < min BUFSIZE c1.length := Nat.pos_of_ne_zero h0
          have hmle : min BUFSIZE c1.length ≤ c1.length := Nat.min_le_right _ _
          have hdrop : (c1.drop (min BUFSIZE c1.length)).length ≤ a := by
            simp only [List.length_drop]
            omega
          rw [ih _ _ hdrop]
          have hiff : c1.drop (min BUFSIZE c1.length) = c2.drop (min BUFSIZE c1.length) ↔
              c1 = c2 := by
            constructor
            · intro hd
              exact take_drop_ext htake hd
            · intro h
              rw [h]
          exact decide_eq_decide.mpr hiff

theorem chunkCmp_eq_decide_eq (c1 c2 : List Nat) : chunkCmp c1 c2 = decide (c1 = c2) :=
  chunkCmp_eq_decide c1.length c1 c2 (Nat.le_refl _)

/-! ### Lemmas about the comparison cache -/

theorem cacheInsert_length (c : Cache) (k : CacheKey) (v : Bool) :
    (cacheInsert c k v).length ≤ c.length + 1 := by
  unfold cacheInsert
  split
  · simp
  · simp

/-- The two ways a `cmp` call can leave the cache: untouched, or with the
freshly computed outcome inserted after the clear-if-oversized sweep. -/
theorem cmp_cache_cases (fs : FS) (c : Cache) (f1 f2 : String) (shallow : Bool) :
    (cmp fs c f1 f2 shallow).cache = c ∨
    ∃ s1 s2 outcome, do_cmp fs f1 f2 = .ok outcome ∧
      (cmp fs c f1 f2 shallow).cache =
        cacheInsert (if c.length > MAX_CACHE_SIZE then clear_cache else c)
          (f1, f2, s1, s2) outcome := by
  unfold cmp
  cases fs.stat f1 with
  | error e => exact Or.inl rfl
  | ok st1 =>
    cases fs.stat f2 with
    | error e => exact Or.inl rfl
    | ok st2 =>
      dsimp only
      split
      · exact Or.inl rfl
      · split
        · exact Or.inl rfl
        · split
          · exact Or.inl rfl
          · cases hget : cacheGet c (f1, f2, sig st1, sig st2) with
            | some outcome => exact Or.inl rfl
            | none =>
              cases hdo : do_cmp fs f1 f2 with
              | error e => exact Or.inl rfl
              | ok outcome =>
                exact Or.inr ⟨sig st1, sig st2, outcome, rfl, rfl⟩

theorem cmp_cache_length (fs : FS) (c : Cache) (f1 f2 : String) (shallow : Bool)
    (h : c.length ≤ MAX_CACHE_SIZE + 1) :
    (cmp fs c f1 f2 shallow).cache.length ≤ MAX_CACHE_SIZE + 1 := by
  rcases cmp_cache_cases fs c f1 f2 shallow with hcase | ⟨s1, s2, outcome, _, hcase⟩
  · rw [hcase]; exact h
  · rw [hcase]
    refine le_trans (cacheInsert_length _ _ _) ?_
    split
    next => simp [clear_cache]
    next hle =>
      simp only [gt_iff_lt, not_lt] at hle
      omega

/-- Every entry of the cache keyed by a pair of identical paths records a
`true` outcome; this is the invariant behind reflexivity of `cmp`. -/
def SelfOK (c : Cache) : Prop :=
  ∀ e ∈ c, e.1.1 = e.1.2.1 → e.2 = true

theorem selfOK_nil : SelfOK ([] : Cache) := by
  intro e he
  cases he

theorem selfOK_insert {c : Cache} {k : CacheKey} {v : Bool} (hc : SelfOK c)
    (hk : k.1 = k.2.1 → v = true) : SelfOK (cacheInsert c k v) := by
  unfold cacheInsert
  split
  · intro e he hself
    rcases List.mem_map.mp he with ⟨e0, he0, heq⟩
    by_cases hkey : keyEqv e0.1 k = true
    · rw [if_pos hkey] at heq
      subst heq
      exact hk hself
    · rw [if_neg hkey] at heq
      subst heq
      exact hc e0 he0 hself
  · intro e he hself
    rcases List.mem_cons.mp he with heq | hmem
    · subst heq
      exact hk hself
    · exact hc e hmem hself

theorem do_cmp_self (fs : FS) (f : String) (b : Bool) (h : do_cmp fs f f = .ok b) :
    b = true := by
  unfold do_cmp at h
  cases hcon : fs.content f with
  | error e =>
    rw [hcon] at h
    cases h
  | ok data =>
    rw [hcon] at h
    dsimp only at h
    rw [chunkCmp_eq_decide_eq] at h
    simp at h
    exact h

theorem selfOK_cmp (fs : FS) (c : Cache) (f1 f2 : String) (shallow : Bool)
    (hc : SelfOK c) : SelfOK (cmp fs c f1 f2 shallow).cache := by
  rcases cmp_cache_cases fs c f1 f2 shallow with hcase | ⟨s1, s2, outcome, hdo, hcase⟩
  · rw [hcase]; exact hc
  · rw [hcase]
    have hbase : SelfOK (if c.length > MAX_CACHE_SIZE then clear_cache else c) := by
      split
      · exact selfOK_nil
      · exact hc
    refine selfOK_insert hbase ?_
    intro hself
    simp only at hself
    subst hself
    exact do_cmp_self fs f1 outcome hdo

theorem selfOK_reachable (c : Cache) (h : CacheReachable c) : SelfOK c := by
  induction h with
  | empty => exact selfOK_nil
  | step fs c f1 f2 shallow _ ih => exact selfOK_cmp fs c f1 f2 shallow ih
  | clearStep c _ _ => exact selfOK_nil

theorem cacheGet_selfOK {c : Cache} (hc : SelfOK c) (f : String) (s1 s2 : Signature)
    {b : Bool} (h : cacheGet c (f, f, s1, s2) = some b) : b = true := by
  unfold cacheGet at h
  cases hfind : c.find? (fun e => keyEqv e.1 (f, f, s1, s2)) with
  | none => rw [hfind] at h; cases h
  | some e =>
    rw [hfind] at h
    have hmem : e ∈ c := List.mem_of_find?_eq_some hfind
    have hpred := List.find?_some hfind
    unfold keyEqv at hpred
    simp only [Bool.and_eq_true, decide_eq_true_eq] at hpred
    have hself : e.1.1 = e.1.2.1 := by
      rw [hpred.1.1.1, hpred.1.1.2]
    have := hc e hmem hself
    simp only [Option.map] at h
    cases h
    exact this

/-- Unfolding of `cmp` once both stats are known to succeed. -/
theorem cmp_of_stats (fs : FS) (c : Cache) (f1 f2 : String) (shallow : Bool)
    (st1 st2 : StatResult) (h1 : fs.stat f1 = .ok st1) (h2 : fs.stat f2 = .ok st2) :
    cmp fs c f1 f2 shallow =
      (if (sig st1).s_ifmt ≠ S_IFREG ∨ (sig st2).s_ifmt ≠ S_IFREG then
        ⟨.ok false, c, false, false⟩
      else if shallow && Signature.eqv (sig st1) (sig st2) then ⟨.ok true, c, false, false⟩
      else if (sig st1).st_size ≠ (sig st2).st_size then ⟨.ok false, c, false, false⟩
      else
        match cacheGet c (f1, f2, sig st1, sig st2) with
        | some outcome => ⟨.ok outcome, c, false, true⟩
        | none =>
          match do_cmp fs f1 f2 with
          | .error e => ⟨.error e, c, true, true⟩
          | .ok outcome =>
            ⟨.ok outcome,
              cacheInsert (if c.length > MAX_CACHE_SIZE then clear_cache else c)
                (f1, f2, sig st1, sig st2) outcome, true, true⟩) := by
  unfold cmp
  rw [h1, h2]

/-! ### Claim C1: cache eviction policy and the resulting size bound -/

/--
Claim C1 (amended): during `cmp`, *before* a fresh comparison outcome is
inserted, the whole cache is cleared if its current size exceeds
`MAX_CACHE_SIZE` (100); consequently every cache state reachable through
the library holds at most 101 entries (not 100: the sweep runs before the
insert, so a call that finds exactly 100 entries inserts the 101st without
sweeping).
-/
theorem cmp_cache_eviction_bound :
    (∀ (fs : FS) (c : Cache) (f1 f2 : String) (shallow : Bool),
      (cmp fs c f1 f2 shallow).cache = c ∨
      ∃ s1 s2 outcome, do_cmp fs f1 f2 = .ok outcome ∧
        (cmp fs c f1 f2 shallow).cache =
          cacheInsert (if c.length > MAX_CACHE_SIZE then clear_cache else c)
            (f1, f2, s1, s2) outcome)
    ∧ ∀ c : Cache, CacheReachable c → c.length ≤ MAX_CACHE_SIZE + 1 := by
  constructor
  · exact cmp_cache_cases
  · intro c h
    induction h with
    | empty => simp
    | step fs c f1 f2 shallow _ ih => exact cmp_cache_length fs c f1 f2 shallow ih
    | clearStep c _ _ => simp [clear_cache]

theorem cmp_cache_eviction_bound_witness :
    ([] : Cache).length ≤ MAX_CACHE_SIZE + 1 :=
  cmp_cache_eviction_bound.2 [] CacheReachable.empty

/-- A family of filesystems used to drive the cache to 101 entries: under
`fsN n` every path stats as a regular file of size `n` with empty content,
so the `n`-th comparison of `x` against `y` introduces a fresh key. -/
def fsN (n : Nat) : FS :=
  { stat := fun _ => .ok ⟨0o100000, n, ⟨0⟩⟩,
    content := fun _ => .ok [],
    readDir := fun _ => .error .ioError }

/-- The cache after `n` deep comparisons with pairwise distinct keys. -/
def evolveCache (n : Nat) : Cache :=
  (List.range n).foldl (fun c k => (cmp (fsN k) c "x" "y" false).cache) []

theorem evolveCache_succ (n : Nat) :
    evolveCache (n + 1) = (cmp (fsN n) (evolveCache n) "x" "y" false).cache := by
  unfold evolveCache
  rw [List.range_succ, List.foldl_append, List.foldl_cons, List.foldl_nil]

theorem evolveCache_reachable (n : Nat) : CacheReachable (evolveCache n) := by
  induction n with
  | zero => exact CacheReachable.empty
  | succ n ih =>
    rw [evolveCache_succ]
    exact CacheReachable.step (fsN n) (evolveCache n) "x" "y" false ih

/--
Counterexample to claim C1 as stated: the source checks the size bound
*before* the insert (`src/lib.rs:124-128`), so the insert that brings the
cache from 100 to 101 entries is not followed by a sweep.  The concrete
cache below is produced by 101 `cmp` calls from the empty cache (hence is
exactly the state "after a cmp call returns") and holds 101 > 100 entries,
contradicting "after every cmp call returns, the cache holds at most 100
entries".
-/
theorem cmp_cache_exceeds_max_cex :
    evolveCache 101 = (cmp (fsN 100) (evolveCache 100) "x" "y" false).cache ∧
    CacheReachable (evolveCache 101) ∧
    MAX_CACHE_SIZE < (evolveCache 101).length :=
  ⟨evolveCache_succ 100, evolveCache_reachable 101,
    by set_option maxRecDepth 10000 in decide⟩

/-! ### Claim C6: `do_cmp` decides byte-content equality -/

/--
Claim C6: when both files' contents are readable, the chunked lockstep
comparison `do_cmp` returns `Ok true` exactly when the byte contents are
equal, and `Ok false` exactly when they differ (mismatching read lengths or
chunk contents); it never returns an error in this situation.
-/
theorem do_cmp_decides_content_eq (fs : FS) (f1 f2 : String) (c1 c2 : List Nat)
    (h1 : fs.content f1 = .ok c1) (h2 : fs.content f2 = .ok c2) :
    do_cmp fs f1 f2 = .ok (decide (c1 = c2))
    ∧ (do_cmp fs f1 f2 = .ok true ↔ c1 = c2)
    ∧ (do_cmp fs f1 f2 = .ok false ↔ c1 ≠ c2) := by
  have hval : do_cmp fs f1 f2 = .ok (decide (c1 = c2)) := by
    unfold do_cmp
    rw [h1, h2]
    dsimp only
    rw [chunkCmp_eq_decide_eq]
  refine ⟨hval, ?_, ?_⟩
  · rw [hval]
    by_cases h : c1 = c2 <;> simp [h]
  · rw [hval]
    by_cases h : c1 = c2 <;> simp [h]

def fsC6 : FS :=
  { stat := fun _ => .error .ioError,
    content := fun p => if p = "a" then .ok [1, 2, 3] else .ok [1, 2, 4],
    readDir := fun _ => .error .ioError }

theorem do_cmp_decides_content_eq_witness :
    do_cmp fsC6 "a" "b" = .ok (decide ([1, 2, 3] = ([1, 2, 4] : List Nat)))
    ∧ (do_cmp fsC6 "a" "b" = .ok true ↔ ([1, 2, 3] : List Nat) = [1, 2, 4])
    ∧ (do_cmp fsC6 "a" "b" = .ok false ↔ ([1, 2, 3] : List Nat) ≠ [1, 2, 4]) :=
  do_cmp_decides_content_eq fsC6 "a" "b" [1, 2, 3] [1, 2, 4] rfl rfl

/-! ### Claim C9: `cmpfiles` is infallible at its own interface -/

/--
Claim C9: despite its `io::Result` return type, `cmpfiles` always returns
`Ok`: every per-name `cmp` error is routed into the third (funny) bucket by
the loop, and no `?` operator appears in the body.
-/
theorem cmpfiles_infallible (fs : FS) (c : Cache) (dir1 dir2 : String)
    (common : List String) (shallow : Bool) :
    ∃ v, cmpfiles fs c dir1 dir2 common shallow = .ok v :=
  ⟨cmpfilesLoop fs dir1 dir2 shallow c common, rfl⟩

/-! ### Claims C4, C5, C7: the short-circuit branches of `cmp` -/

theorem eqv_of_eq {a b : Signature} (h : a = b) : Signature.eqv a b = true := by
  subst h
  simp [Signature.eqv]

theorem eqv_size {a b : Signature} (h : Signature.eqv a b = true) :
    a.st_size = b.st_size := by
  simp [Signature.eqv, Signature.canonicalize] at h
  exact h.2.1

/--
Claim C4: for two regular files whose extracted signatures are fully
structurally equal (kind, size and modification time all match exactly),
`cmp` with `shallow = true` returns `Ok true`, reads no file content, does
not consult the cache and leaves it unchanged.
-/
theorem cmp_shallow_equal_sig (fs : FS) (c : Cache) (f1 f2 : String)
    (st1 st2 : StatResult)
    (h1 : fs.stat f1 = .ok st1) (h2 : fs.stat f2 = .ok st2)
    (hreg : S_IFMT st1.st_mode = S_IFREG) (hsig : sig st1 = sig st2) :
    cmp fs c f1 f2 true = ⟨.ok true, c, false, false⟩ := by
  rw [cmp_of_stats fs c f1 f2 true st1 st2 h1 h2]
  have hs1 : (sig st1).s_ifmt = S_IFREG := hreg
  have hs2 : (sig st2).s_ifmt = S_IFREG := by rw [← hsig]; exact hreg
  have heqv : Signature.eqv (sig st1) (sig st2) = true := eqv_of_eq hsig
  simp [hs1, hs2, heqv]

def fsC4 : FS :=
  { stat := fun _ => .ok ⟨0o100644, 5, ⟨42⟩⟩,
    content := fun _ => .ok [0, 0, 0, 0, 0],
    readDir := fun _ => .error .ioError }

theorem cmp_shallow_equal_sig_witness :
    cmp fsC4 [] "a" "b" true = ⟨.ok true, [], false, false⟩ :=
  cmp_shallow_equal_sig fsC4 [] "a" "b" ⟨0o100644, 5, ⟨42⟩⟩ ⟨0o100644, 5, ⟨42⟩⟩
    rfl rfl (by decide) rfl

/--
Claim C5: for two regular files whose sizes differ, `cmp` returns
`Ok false` under both values of `shallow`, reads no file content, does not
consult the cache and leaves it unchanged.  (The shallow signature
short-circuit cannot fire: differing sizes force differing signatures.)
-/
theorem cmp_size_short_circuit (fs : FS) (c : Cache) (f1 f2 : String)
    (st1 st2 : StatResult) (shallow : Bool)
    (h1 : fs.stat f1 = .ok st1) (h2 : fs.stat f2 = .ok st2)
    (hr1 : S_IFMT st1.st_mode = S_IFREG) (hr2 : S_IFMT st2.st_mode = S_IFREG)
    (hsize : st1.st_size ≠ st2.st_size) :
    cmp fs c f1 f2 shallow = ⟨.ok false, c, false, false⟩ := by
  rw [cmp_of_stats fs c f1 f2 shallow st1 st2 h1 h2]
  have hs1 : (sig st1).s_ifmt = S_IFREG := hr1
  have hs2 : (sig st2).s_ifmt = S_IFREG := hr2
  have heqv : Signature.eqv (sig st1) (sig st2) = false := by
    cases heq : Signature.eqv (sig st1) (sig st2)
    · rfl
    · exact absurd (eqv_size heq) hsize
  have hsz : (sig st1).st_size ≠ (sig st2).st_size := hsize
  simp [hs1, hs2, heqv, hsz]

def fsC5 : FS :=
  { stat := fun p => if p = "a" then .ok ⟨0o100000, 1, ⟨0⟩⟩ else .ok ⟨0o100000, 2, ⟨0⟩⟩,
    content := fun _ => .ok [9],
    readDir := fun _ => .error .ioError }

theorem cmp_size_short_circuit_witness :
    cmp fsC5 [] "a" "b" true = ⟨.ok false, [], false, false⟩ ∧
    cmp fsC5 [] "a" "b" false = ⟨.ok false, [], false, false⟩ :=
  ⟨cmp_size_short_circuit fsC5 [] "a" "b" ⟨0o100000, 1, ⟨0⟩⟩ ⟨0o100000, 2, ⟨0⟩⟩ true
      rfl rfl (by decide) (by decide) (by decide),
    cmp_size_short_circuit fsC5 [] "a" "b" ⟨0o100000, 1, ⟨0⟩⟩ ⟨0o100000, 2, ⟨0⟩⟩ false
      rfl rfl (by decide) (by decide) (by decide)⟩

/--
Claim C7: reflexivity — for every existing, readable regular file `f`, in
any cache state reachable through the library, `cmp f f shallow` returns
`Ok true` for both values of `shallow`.  (In shallow mode the signature
short-circuit fires; in deep mode either the cache holds the entry — whose
value is necessarily `true` by the `SelfOK` invariant of reachable caches —
or `do_cmp` compares the file's content with itself.)
-/
theorem cmp_reflexive (fs : FS) (c : Cache) (f : String) (st : StatResult)
    (data : List Nat) (shallow : Bool)
    (hreach : CacheReachable c)
    (hstat : fs.stat f = .ok st)
    (hreg : S_IFMT st.st_mode = S_IFREG)
    (hcontent : fs.content f = .ok data) :
    (cmp fs c f f shallow).result = .ok true := by
  rw [cmp_of_stats fs c f f shallow st st hstat hstat]
  have hs1 : (sig st).s_ifmt = S_IFREG := hreg
  have heqv : Signature.eqv (sig st) (sig st) = true := eqv_of_eq rfl
  cases shallow with
  | true => simp [hs1, heqv]
  | false =>
    cases hget : cacheGet c (f, f, sig st, sig st) with
    | some b =>
      have hb : b = true := cacheGet_selfOK (selfOK_reachable c hreach) f _ _ hget
      subst hb
      simp [hs1, hget]
    | none =>
      have hdo : do_cmp fs f f = .ok (decide (data = data)) := by
        unfold do_cmp
        rw [hcontent]
        dsimp only
        rw [chunkCmp_eq_decide_eq]
      simp [hs1, hget, hdo]

def fsC7 : FS :=
  { stat := fun _ => .ok ⟨0o100000, 2, ⟨1⟩⟩,
    content := fun _ => .ok [7, 7],
    readDir := fun _ => .error .ioError }

theorem cmp_reflexive_witness :
    (cmp fsC7 [] "f" "f" true).result = .ok true ∧
    (cmp fsC7 [] "f" "f" false).result = .ok true :=
  ⟨cmp_reflexive fsC7 [] "f" ⟨0o100000, 2, ⟨1⟩⟩ [7, 7] true
      CacheReachable.empty rfl (by decide) rfl,
    cmp_reflexive fsC7 [] "f" ⟨0o100000, 2, ⟨1⟩⟩ [7, 7] false
      CacheReachable.empty rfl (by decide) rfl⟩

/-! ### Claim C2: failure mode of `DirCmp::new` on unlistable directories -/

def fsC2 : FS :=
  { stat := fun _ => .error .ioError,
    content := fun _ => .error .ioError,
    readDir := fun _ => .error .ioError }

/--
Counterexample to claim C2 as stated: on a filesystem where the top-level
directories cannot be listed, `DirCmp::new` fails by panicking — the
`.unwrap()` on `read_dir()` at `src/lib.rs:250/258` — and not with an
`IOError`.  Its return type is `Self`, so it cannot carry an `IOError` at
all; `RunErr` has only the `panicked` constructor.
-/
theorem dircmp_new_ioerror_cex :
    DirCmp.new fsC2 [] "L" "R" = .error .panicked := rfl

/--
Claim C2 (amended): whenever either of the two top-level directories cannot
be listed, `DirCmp::new` fails by panicking (the `unwrap` of the `read_dir`
result), rather than returning an `IOError` — the constructor signature
`new(..) -> Self` admits no error return.
-/
theorem dircmp_new_panics (fs : FS) (c : Cache) (l r : String)
    (h : (∃ e, fs.readDir l = .error e) ∨ (∃ e, fs.readDir r = .error e)) :
    DirCmp.new fs c l r = .error .panicked := by
  unfold DirCmp.new
  cases hl : fs.readDir l with
  | error e => rfl
  | ok L =>
    cases hr : fs.readDir r with
    | error e => rfl
    | ok R =>
      exfalso
      rcases h with ⟨e, he⟩ | ⟨e, he⟩
      · rw [hl] at he
        cases he
      · rw [hr] at he
        cases he

theorem dircmp_new_panics_witness :
    DirCmp.new fsC2 [] "A" "B" = .error .panicked :=
  dircmp_new_panics fsC2 [] "A" "B" (Or.inl ⟨.ioError, rfl⟩)

/-! ### Claim C10: signature equality is raw bit-pattern equality -/

/-- NaN detection on the bit pattern of an `f64` (exponent all ones,
non-zero mantissa), modelled from IEEE 754. -/
def F64.isNanBits (x : F64) : Bool :=
  (x.bits % 2 ^ 64) / 2 ^ 52 % 2 ^ 11 == 0x7FF && x.bits % 2 ^ 52 != 0

/-- Zero detection on the bit pattern of an `f64` (both `+0.0` and `-0.0`),
modelled from IEEE 754. -/
def F64.isZeroBits (x : F64) : Bool :=
  x.bits % 2 ^ 63 == 0

/-- IEEE-754 equality on `f64` bit patterns, modelled from the standard:
this is the `==` Rust would apply to raw `f64` values — NaN is unequal to
itself and `+0.0 == -0.0` — and is exactly what the source avoids by
comparing `to_ne_bytes` instead. -/
def f64IeeeEq (a b : F64) : Bool :=
  if F64.isNanBits a || F64.isNanBits b then false
  else (a.bits % 2 ^ 64 == b.bits % 2 ^ 64) || (F64.isZeroBits a && F64.isZeroBits b)

/-- A quiet NaN bit pattern. -/
def F64.nanExample : F64 := ⟨0x7FF8000000000000⟩

/-- The bit pattern of `+0.0`. -/
def F64.posZero : F64 := ⟨0⟩

/-- The bit pattern of `-0.0`. -/
def F64.negZero : F64 := ⟨0x8000000000000000⟩

/--
Claim C10: `Signature` equality compares the modification time by its raw
bit pattern (`to_ne_bytes`), so it is a genuine equivalence relation —
reflexive, symmetric and transitive — reflexive even on a NaN modification
time (which IEEE `==` makes unequal to itself), it distinguishes `+0.0`
from `-0.0` (which IEEE `==` identifies), and the `Hash` implementation
(hashing the same canonicalized tuple) is consistent with this equality.
-/
theorem signature_eq_bitpattern :
    (∀ a : Signature, Signature.eqv a a = true)
    ∧ (∀ a b : Signature, Signature.eqv a b = Signature.eqv b a)
    ∧ (∀ a b c : Signature, Signature.eqv a b = true → Signature.eqv b c = true →
        Signature.eqv a c = true)
    ∧ (F64.isNanBits F64.nanExample = true
        ∧ f64IeeeEq F64.nanExample F64.nanExample = false
        ∧ ∀ k sz, Signature.eqv ⟨k, sz, F64.nanExample⟩ ⟨k, sz, F64.nanExample⟩ = true)
    ∧ (f64IeeeEq F64.posZero F64.negZero = true
        ∧ ∀ k sz, Signature.eqv ⟨k, sz, F64.posZero⟩ ⟨k, sz, F64.negZero⟩ = false)
    ∧ ∀ (h : Nat × Nat × List Nat → Nat) (a b : Signature),
        Signature.eqv a b = true → Signature.hashWith h a = Signature.hashWith h b := by
  refine ⟨?_, ?_, ?_, ⟨by decide, by decide, ?_⟩, ⟨by decide, ?_⟩, ?_⟩
  · intro a
    simp [Signature.eqv]
  · intro a b
    simp only [Signature.eqv]
    exact decide_eq_decide.mpr ⟨Eq.symm, Eq.symm⟩
  · intro a b c hab hbc
    simp only [Signature.eqv, decide_eq_true_eq] at hab hbc ⊢
    exact hab.trans hbc
  · intro k sz
    simp [Signature.eqv]
  · intro k sz
    simp only [Signature.eqv, decide_eq_false_iff_not]
    intro h
    have hb := congrArg (fun t => t.2.2) h
    simp only [Signature.canonicalize] at hb
    exact absurd hb (by decide)
  · intro h a b hab
    simp only [Signature.eqv, decide_eq_true_eq] at hab
    unfold Signature.hashWith
    rw [hab]

theorem signature_eq_bitpattern_witness :
    Signature.eqv ⟨1, 2, ⟨3⟩⟩ ⟨1, 2, ⟨3⟩⟩ = true ∧
    Signature.hashWith (fun t => t.2.1) ⟨1, 2, ⟨3⟩⟩ =
      Signature.hashWith (fun t => t.2.1) ⟨1, 2, ⟨3⟩⟩ :=
  ⟨signature_eq_bitpattern.1 ⟨1, 2, ⟨3⟩⟩,
    signature_eq_bitpattern.2.2.2.2.2 (fun t => t.2.1) ⟨1, 2, ⟨3⟩⟩ ⟨1, 2, ⟨3⟩⟩ (by decide)⟩

/-! ### Claim C3: the classification partitions -/

theorem perm_cons_left {x : String} {a b c rest : List String}
    (h : (a ++ b ++ c).Perm rest) : ((x :: a) ++ b ++ c).Perm (x :: rest) :=
  List.Perm.cons x h

theorem perm_cons_mid {x : String} {a b c rest : List String}
    (h : (a ++ b ++ c).Perm rest) : (a ++ (x :: b) ++ c).Perm (x :: rest) := by
  have he : a ++ (x :: b) ++ c = a ++ x :: (b ++ c) := by simp
  rw [he]
  refine List.Perm.trans List.perm_middle (List.Perm.cons x ?_)
  rw [← List.append_assoc]
  exact h

theorem perm_cons_right {x : String} {a b c rest : List String}
    (h : (a ++ b ++ c).Perm rest) : (a ++ b ++ (x :: c)).Perm (x :: rest) :=
  List.Perm.trans List.perm_middle (List.Perm.cons x h)

/-- The three classification buckets together are a permutation of the
common-name list. -/
theorem classifyCommon_perm (fs : FS) (left right : String) :
    ∀ common : List String,
      ((classifyCommon fs left right common).1 ++
        (classifyCommon fs left right common).2.1 ++
        (classifyCommon fs left right common).2.2).Perm common := by
  intro common
  induction common with
  | nil => simp [classifyCommon]
  | cons x rest ih =>
    simp only [classifyCommon]
    cases fs.stat (joinPath left x) with
    | error e => exact perm_cons_right ih
    | ok ls =>
      cases fs.stat (joinPath right x) with
      | error e => exact perm_cons_right ih
      | ok rs =>
        dsimp only
        split
        · exact perm_cons_right ih
        · split
          · exact perm_cons_left ih
          · split
            · exact perm_cons_mid ih
            · exact perm_cons_right ih

/-- The three `cmpfiles` buckets together are a permutation of the common
list, for every starting cache. -/
theorem cmpfilesLoop_perm (fs : FS) (d1 d2 : String) (shallow : Bool) :
    ∀ (common : List String) (c : Cache),
      ((cmpfilesLoop fs d1 d2 shallow c common).1.1 ++
        (cmpfilesLoop fs d1 d2 shallow c common).1.2.1 ++
        (cmpfilesLoop fs d1 d2 shallow c common).1.2.2).Perm common := by
  intro common
  induction common with
  | nil => intro c; simp [cmpfilesLoop]
  | cons x rest ih =>
    intro c
    simp only [cmpfilesLoop]
    cases (cmp fs c (joinPath d1 x) (joinPath d2 x) shallow).result with
    | error e => exact perm_cons_right (ih _)
    | ok b =>
      cases b with
      | true => exact perm_cons_left (ih _)
      | false => exact perm_cons_mid (ih _)

theorem listNames_nodup {L : List String} (h : L.Nodup) : (listNames L).Nodup := by
  unfold listNames
  exact ((List.perm_insertionSort _ _).nodup_iff).mpr ((h.filter _).filter _)

/-- Decompose `Nodup` of a three-part concatenation into the pairwise
disjointness of the parts. -/
theorem nodup_three {a b c : List String} (h : (a ++ b ++ c).Nodup) :
    a.Nodup ∧ b.Nodup ∧ c.Nodup ∧ a.Disjoint b ∧ a.Disjoint c ∧ b.Disjoint c := by
  rw [List.nodup_append] at h
  obtain ⟨hab, hc, hdis⟩ := h
  rw [List.nodup_append] at hab
  obtain ⟨ha, hb, hdab⟩ := hab
  rw [List.disjoint_append_left] at hdis
  exact ⟨ha, hb, hc, hdab, hdis.1, hdis.2⟩

/--
Claim C3: whenever `DirCmp::new` classifies two listable directories (with
duplicate-free left listing), `common_dirs`, `common_files` and
`common_funny` are pairwise disjoint and their concatenation is, as a
multiset, exactly `common`; and `same_files`, `diff_files` and
`funny_files` are pairwise disjoint and their concatenation is, as a
multiset, exactly `common_files`.
-/
theorem dircmp_partition (fs : FS) (c : Cache) (l r : String) (L R : List String)
    (d : DirCmpRes) (c1 : Cache)
    (hl : fs.readDir l = .ok L) (hr : fs.readDir r = .ok R) (hnd : L.Nodup)
    (hnew : DirCmp.new fs c l r = .ok (d, c1)) :
    ((↑(d.common_dirs ++ d.common_files ++ d.common_funny) : Multiset String) = ↑d.common
      ∧ d.common_dirs.Disjoint d.common_files
      ∧ d.common_dirs.Disjoint d.common_funny
      ∧ d.common_files.Disjoint d.common_funny)
    ∧ ((↑(d.same_files ++ d.diff_files ++ d.funny_files) : Multiset String) = ↑d.common_files
      ∧ d.same_files.Disjoint d.diff_files
      ∧ d.same_files.Disjoint d.funny_files
      ∧ d.diff_files.Disjoint d.funny_files) := by
  unfold DirCmp.new at hnew
  rw [hl, hr] at hnew
  simp only [cmpfiles] at hnew
  rw [Except.ok.injEq, Prod.mk.injEq] at hnew
  obtain ⟨hd, hc1⟩ := hnew
  subst hd
  set common := (listNames L).filter (fun n => (listNames R).contains n) with hcommon
  have hcnd : common.Nodup := (listNames_nodup hnd).filter _
  have hperm1 := classifyCommon_perm fs l r common
  have hnd1 : ((classifyCommon fs l r common).1 ++ (classifyCommon fs l r common).2.1 ++
      (classifyCommon fs l r common).2.2).Nodup := hperm1.nodup_iff.mpr hcnd
  obtain ⟨-, hfnd, -, hd12, hd13, hd23⟩ := nodup_three hnd1
  have hperm2 := cmpfilesLoop_perm fs l r true (classifyCommon fs l r common).2.1 c
  have hnd2 : ((cmpfilesLoop fs l r true c (classifyCommon fs l r common).2.1).1.1 ++
      (cmpfilesLoop fs l r true c (classifyCommon fs l r common).2.1).1.2.1 ++
      (cmpfilesLoop fs l r true c (classifyCommon fs l r common).2.1).1.2.2).Nodup :=
    hperm2.nodup_iff.mpr hfnd
  obtain ⟨-, -, -, he12, he13, he23⟩ := nodup_three hnd2
  exact ⟨⟨Multiset.coe_eq_coe.mpr hperm1, hd12, hd13, hd23⟩,
    ⟨Multiset.coe_eq_coe.mpr hperm2, he12, he13, he23⟩⟩

def fsC3 : FS :=
  { stat := fun p => if p = "L/a" ∨ p = "R/a" then .ok ⟨0o040000, 0, ⟨0⟩⟩
                     else .ok ⟨0o100000, 0, ⟨0⟩⟩,
    content := fun _ => .ok [],
    readDir := fun p => if p = "L" then .ok ["a", "b"]
                        else if p = "R" then .ok ["b", "c"]
                        else .error .ioError }

def dC3 : DirCmpRes :=
  ⟨"L", "R", ["L/a", "L/b"], ["R/b", "R/c"], ["b"], ["a"], ["c"],
    [], ["b"], [], ["b"], [], []⟩

theorem dircmp_partition_witness :
    ((↑(dC3.common_dirs ++ dC3.common_files ++ dC3.common_funny) : Multiset String) =
        ↑dC3.common
      ∧ dC3.common_dirs.Disjoint dC3.common_files
      ∧ dC3.common_dirs.Disjoint dC3.common_funny
      ∧ dC3.common_files.Disjoint dC3.common_funny)
    ∧ ((↑(dC3.same_files ++ dC3.diff_files ++ dC3.funny_files) : Multiset String) =
        ↑dC3.common_files
      ∧ dC3.same_files.Disjoint dC3.diff_files
      ∧ dC3.same_files.Disjoint dC3.funny_files
      ∧ dC3.diff_files.Disjoint dC3.funny_files) :=
  dircmp_partition fsC3 [] "L" "R" ["a", "b"] ["b", "c"] dC3 []
    rfl rfl (by decide) rfl

/-! ### Claim C8: per-entry I/O errors are recovered, not propagated -/

theorem classifyCommon_funny_of_stat_error (fs : FS) (left right : String) :
    ∀ (common : List String) (x : String), x ∈ common →
      ((∃ e, fs.stat (joinPath left x) = .error e) ∨
        (∃ e, fs.stat (joinPath right x) = .error e)) →
      x ∈ (classifyCommon fs left right common).2.2 := by
  intro common
  induction common with
  | nil =>
    intro x hx _
    cases hx
  | cons y rest ih =>
    intro x hx herr
    simp only [classifyCommon]
    rcases List.mem_cons.mp hx with hxy | hxr
    · subst hxy
      cases hstl : fs.stat (joinPath left x) with
      | error e => simp
      | ok ls =>
        cases hstr : fs.stat (joinPath right x) with
        | error e => simp
        | ok rs =>
          exfalso
          rcases herr with ⟨e, he⟩ | ⟨e, he⟩
          · rw [hstl] at he
            cases he
          · rw [hstr] at he
            cases he
    · have hmem := ih x hxr herr
      cases fs.stat (joinPath left y) with
      | error e => exact List.mem_cons_of_mem y hmem
      | ok ls =>
        cases fs.stat (joinPath right y) with
        | error e => exact List.mem_cons_of_mem y hmem
        | ok rs =>
          dsimp only
          split
          · exact List.mem_cons_of_mem y hmem
          · split
            · exact hmem
            · split
              · exact hmem
              · exact List.mem_cons_of_mem y hmem

theorem cmpfilesLoop_cache_cons (fs : FS) (d1 d2 : String) (shallow : Bool)
    (c : Cache) (y : String) (rest : List String) :
    (cmpfilesLoop fs d1 d2 shallow c (y :: rest)).2 =
      (cmpfilesLoop fs d1 d2 shallow
        (cmp fs c (joinPath d1 y) (joinPath d2 y) shallow).cache rest).2 := by
  simp only [cmpfilesLoop]
  cases (cmp fs c (joinPath d1 y) (joinPath d2 y) shallow).result with
  | error e => rfl
  | ok b => cases b <;> rfl

theorem cmpfilesLoop_funny_cons (fs : FS) (d1 d2 : String) (shallow : Bool)
    (c : Cache) (y x : String) (rest : List String)
    (hx : x ∈ (cmpfilesLoop fs d1 d2 shallow
        (cmp fs c (joinPath d1 y) (joinPath d2 y) shallow).cache rest).1.2.2) :
    x ∈ (cmpfilesLoop fs d1 d2 shallow c (y :: rest)).1.2.2 := by
  simp only [cmpfilesLoop]
  cases (cmp fs c (joinPath d1 y) (joinPath d2 y) shallow).result with
  | error e => exact List.mem_cons_of_mem y hx
  | ok b => cases b <;> exact hx

theorem cmpfilesLoop_funny_of_error (fs : FS) (d1 d2 : String) (shallow : Bool) :
    ∀ (pre : List String) (c : Cache) (x : String) (post : List String),
      (∃ e, (cmp fs (cmpfilesLoop fs d1 d2 shallow c pre).2
          (joinPath d1 x) (joinPath d2 x) shallow).result = .error e) →
      x ∈ (cmpfilesLoop fs d1 d2 shallow c (pre ++ x :: post)).1.2.2 := by
  intro pre
  induction pre with
  | nil =>
    intro c x post herr
    obtain ⟨e, he⟩ := herr
    have he2 : (cmp fs c (joinPath d1 x) (joinPath d2 x) shallow).result = .error e := he
    rw [List.nil_append]
    simp only [cmpfilesLoop]
    rw [he2]
    simp
  | cons y pre ih =>
    intro c x post herr
    rw [cmpfilesLoop_cache_cons] at herr
    have hx := ih (cmp fs c (joinPath d1 y) (joinPath d2 y) shallow).cache x post herr
    rw [List.cons_append]
    exact cmpfilesLoop_funny_cons fs d1 d2 shallow c y x (pre ++ x :: post) hx

/--
Claim C8: an I/O error while probing one specific common entry never aborts
the classification.  (1) `DirCmp::new` succeeds whenever both top-level
listings succeed, whatever stat or comparison errors the entries raise;
(2) a stat failure on either side of a common name puts that name in
`common_funny`; (3) in the `cmpfiles` loop, a common file whose comparison
errors (with the cache state the loop actually carries at that position)
lands in the funny bucket while the loop continues.
-/
theorem dircmp_local_errors_recovered :
    (∀ (fs : FS) (c : Cache) (l r : String) (L R : List String),
      fs.readDir l = .ok L → fs.readDir r = .ok R →
      ∃ v, DirCmp.new fs c l r = .ok v)
    ∧ (∀ (fs : FS) (c : Cache) (l r : String) (L R : List String) (d : DirCmpRes)
        (c1 : Cache), fs.readDir l = .ok L → fs.readDir r = .ok R →
        DirCmp.new fs c l r = .ok (d, c1) →
        ∀ x ∈ d.common,
          ((∃ e, fs.stat (joinPath l x) = .error e) ∨
            (∃ e, fs.stat (joinPath r x) = .error e)) →
          x ∈ d.common_funny)
    ∧ ∀ (fs : FS) (d1 d2 : String) (shallow : Bool) (pre : List String) (c : Cache)
        (x : String) (post : List String),
        (∃ e, (cmp fs (cmpfilesLoop fs d1 d2 shallow c pre).2
            (joinPath d1 x) (joinPath d2 x) shallow).result = .error e) →
        x ∈ (cmpfilesLoop fs d1 d2 shallow c (pre ++ x :: post)).1.2.2 := by
  refine ⟨?_, ?_, ?_⟩
  · intro fs c l r L R hl hr
    unfold DirCmp.new
    rw [hl, hr]
    simp only [cmpfiles]
    exact ⟨_, rfl⟩
  · intro fs c l r L R d c1 hl hr hnew x hx herr
    unfold DirCmp.new at hnew
    rw [hl, hr] at hnew
    simp only [cmpfiles] at hnew
    rw [Except.ok.injEq, Prod.mk.injEq] at hnew
    obtain ⟨hd, -⟩ := hnew
    subst hd
    exact classifyCommon_funny_of_stat_error fs l r _ x hx herr
  · intro fs d1 d2 shallow pre c x post herr
    exact cmpfilesLoop_funny_of_error fs d1 d2 shallow pre c x post herr

def fsC8 : FS :=
  { stat := fun p => if p = "L/b" then .error .ioError else .ok ⟨0o100000, 0, ⟨0⟩⟩,
    content := fun _ => .ok [],
    readDir := fun p => if p = "L" ∨ p = "R" then .ok ["b"] else .error .ioError }

def dC8 : DirCmpRes :=
  ⟨"L", "R", ["L/b"], ["R/b"], ["b"], [], [], [], [], ["b"], [], [], []⟩

def fsC8c : FS :=
  { stat := fun _ => .ok ⟨0o100000, 1, ⟨0⟩⟩,
    content := fun _ => .error .ioError,
    readDir := fun _ => .error .ioError }

theorem dircmp_local_errors_recovered_witness :
    (∃ v, DirCmp.new fsC8 [] "L" "R" = .ok v)
    ∧ "b" ∈ dC8.common_funny
    ∧ "b" ∈ (cmpfilesLoop fsC8c "D" "E" false [] ([] ++ "b" :: [])).1.2.2 :=
  ⟨dircmp_local_errors_recovered.1 fsC8 [] "L" "R" ["b"] ["b"] rfl rfl,
    dircmp_local_errors_recovered.2.1 fsC8 [] "L" "R" ["b"] ["b"] dC8 [] rfl rfl rfl
      "b" (by decide) (Or.inl ⟨.ioError, rfl⟩),
    dircmp_local_errors_recovered.2.2 fsC8c "D" "E" false [] [] "b" []
      ⟨.ioError, rfl⟩⟩

end Filecmp
